import Mathlib

set_option maxHeartbeats 1600000
set_option maxRecDepth 4000
set_option linter.unusedVariables false
set_option linter.unreachableTactic false
set_option linter.unusedTactic false

/-!
Shallow embedding of the `json-subset` repository (Go): the containment
checker with typed diffs (`diff.go`), the string-diff checker (`subset.go`),
and the diff-aware renderer (`diff.go`).  Decoded JSON values
(`interface{}` trees produced by `encoding/json`) are modelled by the
inductive `JValue`; Go maps are modelled as association lists whose list
order stands for the (unobservable) map iteration order.
-/

/-- A decoded JSON value, as produced by `encoding/json.Unmarshal` into
`interface{}`: `nil`, `bool`, `float64`, `string`, `map[string]interface{}`
or `[]interface{}`.  Numbers are modelled as exact rationals: every
`float64` that can result from decoding JSON text is a rational, and both
checkers compare numbers by exact `==` (NaN cannot be decoded from JSON).
An object's association-list order models map iteration order; keys of a
decoded map are distinct. -/
inductive JValue where
  | null
  | boolean (b : Bool)
  | number (q : ℚ)
  | str (s : String)
  | obj (fields : List (String × JValue))
  | arr (elems : List JValue)

/-- One segment of a `spec.NormalizedPath`: `spec.Name` or `spec.Index`. -/
inductive PathSeg where
  | name (s : String)
  | idx (i : ℕ)
deriving DecidableEq

/-- `spec.NormalizedPath` from the jsonpath library: a sequence of segments. -/
abbrev NPath := List PathSeg

/-- Modelled from the spec: the canonical string rendering of a path
(`spec.NormalizedPath.String` of the external `github.com/theory/jsonpath`
dependency, whose code is not among the sources), per spec §6: root is
`$`; object-field descent appends `.<fieldName>`; array-index descent
appends `[<index>]`. -/
def segString : PathSeg → String
  | .name s => "." ++ s
  | .idx i => "[" ++ toString i ++ "]"

/-- Modelled from the spec: canonical rendering of a whole path, the
root `$` followed by each segment's rendering in order. -/
def pathToString (p : NPath) : String :=
  p.foldl (fun acc seg => acc ++ segString seg) "$"

/-- `DiffType` of diff.go. -/
inductive DiffType where
  | missingKey
  | valueMismatch
  | typeMismatch
  | elementNotFound
deriving DecidableEq

/-- `Diff` of diff.go.  The Go fields `SubsetValue`/`SupersetValue` are
`interface{}` left at `nil` when unset; `none` models "unset" and
`some .null` models an explicit JSON null.  (`dtype` stands for the Go
field `Type`, a reserved word in Lean.) -/
structure Diff where
  path : NPath
  dtype : DiffType
  subsetValue : Option JValue := none
  supersetValue : Option JValue := none

/-- `copyPath` of diff.go: copies a path slice.  Lean lists are immutable,
so the copy is the identity. -/
def copyPath (path : NPath) : NPath := path

/-- The Go test `v == nil` on a decoded value. -/
def isNull : JValue → Bool
  | .null => true
  | _ => false

/-- `sort.Strings` of the Go standard library: sorts ascending in the
byte-wise (= code-point-wise) lexicographic order, modelled by insertion
sort over `String`'s linear order. -/
def sortStrings (l : List String) : List String := l.insertionSort (· ≤ ·)

/-- Go map indexing `m[key]` together with the `exists` flag: the first
binding of `key` in the association list, if any. -/
def lookupV (key : String) : List (String × JValue) → Option JValue
  | [] => none
  | (k, v) :: rest => if key = k then some v else lookupV key rest

/-- The scalar comparison of diff.go lines 68-77: Go interface equality
`subset == superset` followed by the redundant `float64` re-check.  On
decoded JSON scalars, interface equality is same-dynamic-type,
same-value equality, and exact rational equality subsumes the float
branch. -/
def scalarsEqual (a b : JValue) : Bool :=
  match a, b with
  | .boolean x, .boolean y => x == y
  | .number x, .number y => x == y
  | .str x, .str y => x == y
  | _, _ => false

theorem lookupV_sizeOf {key : String} :
    ∀ {l : List (String × JValue)} {v : JValue},
      lookupV key l = some v → sizeOf v < sizeOf l := by
  intro l
  induction l with
  | nil => intro v h; simp [lookupV] at h
  | cons p rest ih =>
    intro v h
    obtain ⟨k, w⟩ := p
    by_cases hk : key = k
    · simp only [lookupV, if_pos hk, Option.some.injEq] at h
      subst h
      simp only [List.cons.sizeOf_spec, Prod.mk.sizeOf_spec]
      omega
    · simp only [lookupV, if_neg hk] at h
      have := ih h
      simp only [List.cons.sizeOf_spec, Prod.mk.sizeOf_spec]
      omega

theorem sortStrings_perm (l : List String) : List.Perm (sortStrings l) l :=
  List.perm_insertionSort _ l

theorem sortStrings_length (l : List String) :
    (sortStrings l).length = l.length :=
  (sortStrings_perm l).length_eq

theorem sortStrings_sorted (l : List String) :
    (sortStrings l).Sorted (· ≤ ·) :=
  List.sorted_insertionSort _ l

/-- Sorting depends only on the multiset of keys: permuted key lists
sort to the same list. -/
theorem sortStrings_eq_of_perm {l l' : List String} (h : List.Perm l l') :
    sortStrings l = sortStrings l' :=
  List.eq_of_perm_of_sorted
    (((sortStrings_perm l).trans h).trans (sortStrings_perm l').symm)
    (sortStrings_sorted l) (sortStrings_sorted l')

mutual

/-- `checkSubsetPath` of diff.go (lines 40-79): the recursive containment
check collecting typed, path-tagged diffs. -/
def checkSubsetPath (subset superset : JValue) (path : NPath) : Bool × List Diff :=
  match subset with
  | .null =>
    if isNull superset then (true, [])
    else (false, [{ path := copyPath path, dtype := .valueMismatch,
                    subsetValue := some .null, supersetValue := some superset }])
  | .obj subsetMap =>
    match superset with
    | .obj supersetMap => checkObjectSubset subsetMap supersetMap path
    | _ => (false, [{ path := copyPath path, dtype := .typeMismatch,
                      subsetValue := some (.obj subsetMap),
                      supersetValue := some superset }])
  | .arr subsetArr =>
    match superset with
    | .arr supersetArr => checkArraySubset subsetArr supersetArr path
    | _ => (false, [{ path := copyPath path, dtype := .typeMismatch,
                      subsetValue := some (.arr subsetArr),
                      supersetValue := some superset }])
  | _ =>
    if scalarsEqual subset superset then (true, [])
    else (false, [{ path := copyPath path, dtype := .valueMismatch,
                    subsetValue := some subset, supersetValue := some superset }])
termination_by (sizeOf subset, 0)
decreasing_by
  all_goals simp_wf
  all_goals
    first
      | (apply Prod.Lex.left
         first
           | exact lookupV_sizeOf hv
           | omega
           | (simp_arith
              done)
           | (simp only [JValue.obj.sizeOf_spec, JValue.arr.sizeOf_spec,
                 List.cons.sizeOf_spec, Prod.mk.sizeOf_spec]
              omega))
      | (apply Prod.Lex.right
         first
           | omega
           | (simp_arith
              done)
           | (simp [sortStrings_length]
              done)
           | (simp only [List.cons.sizeOf_spec, Prod.mk.sizeOf_spec]
              omega))

/-- `checkObjectSubset` of diff.go (lines 81-110): collect the subset's
keys, sort them, then run the per-key loop. -/
def checkObjectSubset (subset superset : List (String × JValue)) (path : NPath) :
    Bool × List Diff :=
  objLoop subset superset path (sortStrings (subset.map Prod.fst))
termination_by (sizeOf subset, subset.length + 1)
decreasing_by
  all_goals simp_wf
  all_goals
    first
      | (apply Prod.Lex.left
         first
           | exact lookupV_sizeOf hv
           | omega
           | (simp_arith
              done)
           | (simp only [JValue.obj.sizeOf_spec, JValue.arr.sizeOf_spec,
                 List.cons.sizeOf_spec, Prod.mk.sizeOf_spec]
              omega))
      | (apply Prod.Lex.right
         first
           | omega
           | (simp_arith
              done)
           | (simp [sortStrings_length]
              done)
           | (simp only [List.cons.sizeOf_spec, Prod.mk.sizeOf_spec]
              omega))

/-- The `for _, key := range keys` loop of `checkObjectSubset`.  The
`none` arm for the subset lookup is unreachable: the keys are the
subset map's own keys, so Go map indexing always finds a value there. -/
def objLoop (subset superset : List (String × JValue)) (path : NPath)
    (keys : List String) : Bool × List Diff :=
  match keys with
  | [] => (true, [])
  | key :: rest =>
    let childPath := copyPath path ++ [PathSeg.name key]
    match hv : lookupV key subset with
    | none => objLoop subset superset path rest
    | some subsetValue =>
      match lookupV key superset with
      | none =>
        let res := objLoop subset superset path rest
        (false, { path := childPath, dtype := .missingKey,
                  subsetValue := some subsetValue } :: res.2)
      | some supersetValue =>
        let child := checkSubsetPath subsetValue supersetValue childPath
        let res := objLoop subset superset path rest
        if child.1 then res else (false, child.2 ++ res.2)
termination_by (sizeOf subset, keys.length)
decreasing_by
  all_goals simp_wf
  all_goals
    first
      | (apply Prod.Lex.left
         first
           | exact lookupV_sizeOf hv
           | omega
           | (simp_arith
              done)
           | (simp only [JValue.obj.sizeOf_spec, JValue.arr.sizeOf_spec,
                 List.cons.sizeOf_spec, Prod.mk.sizeOf_spec]
              omega))
      | (apply Prod.Lex.right
         first
           | omega
           | (simp_arith
              done)
           | (simp [sortStrings_length]
              done)
           | (simp only [List.cons.sizeOf_spec, Prod.mk.sizeOf_spec]
              omega))

/-- `checkArraySubset` of diff.go (lines 112-133). -/
def checkArraySubset (subset superset : List JValue) (path : NPath) :
    Bool × List Diff :=
  arrLoop subset superset path 0
termination_by (sizeOf subset, 1)
decreasing_by
  all_goals simp_wf
  all_goals
    first
      | (apply Prod.Lex.left
         first
           | exact lookupV_sizeOf hv
           | omega
           | (simp_arith
              done)
           | (simp only [JValue.obj.sizeOf_spec, JValue.arr.sizeOf_spec,
                 List.cons.sizeOf_spec, Prod.mk.sizeOf_spec]
              omega))
      | (apply Prod.Lex.right
         first
           | omega
           | (simp_arith
              done)
           | (simp [sortStrings_length]
              done)
           | (simp only [List.cons.sizeOf_spec, Prod.mk.sizeOf_spec]
              omega))

/-- The `for i, subsetElem := range subset` loop of `checkArraySubset`. -/
def arrLoop (subset superset : List JValue) (path : NPath) (i : ℕ) :
    Bool × List Diff :=
  match subset with
  | [] => (true, [])
  | subsetElem :: rest =>
    let found := existsMatch subsetElem superset
    let res := arrLoop rest superset path (i + 1)
    if found then res
    else
      let childPath := copyPath path ++ [PathSeg.idx i]
      (false, { path := childPath, dtype := .elementNotFound,
                subsetValue := some subsetElem } :: res.2)
termination_by (sizeOf subset, 0)
decreasing_by
  all_goals simp_wf
  all_goals
    first
      | (apply Prod.Lex.left
         first
           | exact lookupV_sizeOf hv
           | omega
           | (simp_arith
              done)
           | (simp only [JValue.obj.sizeOf_spec, JValue.arr.sizeOf_spec,
                 List.cons.sizeOf_spec, Prod.mk.sizeOf_spec]
              omega))
      | (apply Prod.Lex.right
         first
           | omega
           | (simp_arith
              done)
           | (simp [sortStrings_length]
              done)
           | (simp only [List.cons.sizeOf_spec, Prod.mk.sizeOf_spec]
              omega))

/-- The inner `for _, supersetElem := range superset` search of
`checkArraySubset` (diff.go lines 117-124): first superset element that
contains the subset element, diffs discarded, path reset to empty. -/
def existsMatch (subsetElem : JValue) (superset : List JValue) : Bool :=
  match superset with
  | [] => false
  | supersetElem :: rest =>
    if (checkSubsetPath subsetElem supersetElem []).1 then true
    else existsMatch subsetElem rest
termination_by (sizeOf subsetElem, sizeOf superset)
decreasing_by
  all_goals simp_wf
  all_goals
    first
      | (apply Prod.Lex.left
         first
           | exact lookupV_sizeOf hv
           | omega
           | (simp_arith
              done)
           | (simp only [JValue.obj.sizeOf_spec, JValue.arr.sizeOf_spec,
                 List.cons.sizeOf_spec, Prod.mk.sizeOf_spec]
              omega))
      | (apply Prod.Lex.right
         first
           | omega
           | (simp_arith
              done)
           | (simp [sortStrings_length]
              done)
           | (simp only [List.cons.sizeOf_spec, Prod.mk.sizeOf_spec]
              omega))

end

/-- `checkSubsetWithDiffs` of diff.go (lines 36-38): the typed checker's
entry point, starting from the empty (root) path. -/
def checkSubsetWithDiffs (subset superset : JValue) : Bool × List Diff :=
  checkSubsetPath subset superset []

/-- `Line` of diff.go: one line of rendered output with the path of the
node it renders. -/
structure Line where
  content : String
  path : NPath

/-- `strings.Repeat("  ", indent)`. -/
def indentStr (indent : ℕ) : String :=
  String.join (List.replicate indent "  ")

/-- One character of Go's `%q` escaping: quotes and backslashes are
escaped; control characters and non-ASCII escapes are not modelled (no
input exercised by the development contains them). -/
def goEscapeChar (c : Char) : String :=
  if c = '"' then "\\\""
  else if c = '\\' then "\\\\"
  else String.singleton c

/-- Go's `fmt.Sprintf("%q", s)` on the strings of this development:
double-quote and escape. -/
def goQuote (s : String) : String :=
  "\"" ++ String.join (s.data.map goEscapeChar) ++ "\""

/-- `formatPrimitive` of diff.go (lines 275-291).  `%.0f` on an integral
float renders the integer without a decimal point; the `%v` branch for
non-integral floats (shortest decimal form in Go) is modelled by the
rational's own rendering and is not exercised by any theorem here.  The
`default` arm (Go `%v` of a map or slice) is unreachable from
`generateLines`, which dispatches containers before calling this. -/
def formatPrimitive : JValue → String
  | .str s => goQuote s
  | .number q => if q.den = 1 then toString q.num else toString q
  | .boolean b => if b then "true" else "false"
  | .null => "null"
  | .obj _ => ""
  | .arr _ => ""

/-- `appendToLast`: the Go statement `childLines[lastIdx].Content += comma`
guarded by `len(childLines) > 0`. -/
def appendToLast (lines : List Line) (s : String) : List Line :=
  match lines with
  | [] => []
  | [l] => [{ content := l.content ++ s, path := l.path }]
  | l :: rest => l :: appendToLast rest s

mutual

/-- `generateLines` of diff.go (lines 152-165). -/
def generateLines (value : JValue) (path : NPath) (indent : ℕ) : List Line :=
  match value with
  | .obj v => generateObjectLines v path indent
  | .arr v => generateArrayLines v path indent
  | _ => [{ content := indentStr indent ++ formatPrimitive value,
            path := copyPath path }]
termination_by (sizeOf value, 0)
decreasing_by
  all_goals simp_wf
  all_goals apply Prod.Lex.left
  all_goals simp_arith

/-- `generateObjectLines` of diff.go (lines 167-193). -/
def generateObjectLines (obj : List (String × JValue)) (path : NPath)
    (indent : ℕ) : List Line :=
  ({ content := indentStr indent ++ "\x7b", path := copyPath path } : Line)
    :: objKVLines obj (sortStrings (obj.map Prod.fst)) path (indent + 1)
    ++ [{ content := indentStr indent ++ "\x7d", path := copyPath path }]
termination_by (sizeOf obj, obj.length + 1)
decreasing_by
  simp_wf
  apply Prod.Lex.right
  simp [sortStrings_length]

/-- The `for i, key := range keys` loop shared by `generateObjectLines`
(lines 179-189) and the object arm of `generateKeyValueLines` (lines
234-242): each sorted key is rendered at `indent` with a trailing comma
on all but the last sibling.  The `none` arm of the subset lookup is
unreachable (the keys are the map's own keys). -/
def objKVLines (obj : List (String × JValue)) (keys : List String)
    (path : NPath) (indent : ℕ) : List Line :=
  match keys with
  | [] => []
  | key :: rest =>
    let childPath := copyPath path ++ [PathSeg.name key]
    let comma := if rest.isEmpty then "" else ","
    match hv : lookupV key obj with
    | none => objKVLines obj rest path indent
    | some childValue =>
      generateKeyValueLines key childValue childPath indent comma
        ++ objKVLines obj rest path indent
termination_by (sizeOf obj, keys.length)
decreasing_by
  all_goals simp_wf
  all_goals
    first
      | (apply Prod.Lex.left
         exact lookupV_sizeOf hv)
      | (apply Prod.Lex.right
         omega)

/-- `generateArrayLines` of diff.go (lines 195-218). -/
def generateArrayLines (arr : List JValue) (path : NPath) (indent : ℕ) :
    List Line :=
  ({ content := indentStr indent ++ "[", path := copyPath path } : Line)
    :: arrElemLines arr 0 path (indent + 1)
    ++ [{ content := indentStr indent ++ "]", path := copyPath path }]
termination_by (sizeOf arr, 1)
decreasing_by
  simp_wf
  apply Prod.Lex.right
  omega

/-- The `for i, elem := range arr` loop shared by `generateArrayLines`
(lines 201-214) and the array arm of `generateKeyValueLines` (lines
251-264): each element's lines at `indent`, with the separator appended
to the element's last line for all but the last sibling. -/
def arrElemLines (arr : List JValue) (i : ℕ) (path : NPath) (indent : ℕ) :
    List Line :=
  match arr with
  | [] => []
  | elem :: rest =>
    let childPath := copyPath path ++ [PathSeg.idx i]
    let comma := if rest.isEmpty then "" else ","
    appendToLast (generateLines elem childPath indent) comma
      ++ arrElemLines rest (i + 1) path indent
termination_by (sizeOf arr, 0)
decreasing_by
  all_goals simp_wf
  all_goals apply Prod.Lex.left
  all_goals simp_arith

/-- `generateKeyValueLines` of diff.go (lines 220-273). -/
def generateKeyValueLines (key : String) (value : JValue) (path : NPath)
    (indent : ℕ) (comma : String) : List Line :=
  match value with
  | .obj v =>
    ({ content := indentStr indent ++ goQuote key ++ ": \x7b",
       path := copyPath path } : Line)
      :: objKVLines v (sortStrings (v.map Prod.fst)) path (indent + 1)
      ++ [{ content := indentStr indent ++ "\x7d" ++ comma, path := copyPath path }]
  | .arr v =>
    ({ content := indentStr indent ++ goQuote key ++ ": [",
       path := copyPath path } : Line)
      :: arrElemLines v 0 path (indent + 1)
      ++ [{ content := indentStr indent ++ "]" ++ comma, path := copyPath path }]
  | _ =>
    [{ content := indentStr indent ++ goQuote key ++ ": "
         ++ formatPrimitive value ++ comma,
       path := copyPath path }]
termination_by (sizeOf value, 0)
decreasing_by
  all_goals simp_wf
  all_goals apply Prod.Lex.left
  all_goals simp_arith

end

/-- `strings.HasPrefix s pre` of the Go standard library: byte-wise
prefix, equivalent on valid UTF-8 strings to character-wise prefix. -/
def goHasPrefix (s pre : String) : Bool :=
  pre.data.isPrefixOf s.data

/-- `shouldMarkAsDiff` of diff.go (lines 311-326): a line is marked when
its path string is an exact member of the diff-path set, or when some
diff path string is a strict prefix of it (`strings.HasPrefix` plus a
length test; for a prefix, strictly greater byte length and strictly
greater character length coincide). -/
def shouldMarkAsDiff (path : NPath) (diffPaths : List String) : Bool :=
  let pathStr := pathToString path
  if diffPaths.contains pathStr then true
  else diffPaths.any (fun diffPath =>
    goHasPrefix pathStr diffPath && diffPath.length < pathStr.length)

/-- `formatOutput` of diff.go (lines 294-308): each line prefixed by `-`
or a space, newline-terminated. -/
def formatOutput (lines : List Line) (diffPaths : List String) : String :=
  String.join (lines.map (fun line =>
    (if shouldMarkAsDiff line.path diffPaths then "-" else " ")
      ++ line.content ++ "\n"))

/-- `FormatDiffOutput` of diff.go (lines 141-149): canonicalize the diff
paths (the Go `map[string]bool` set is modelled as the list of rendered
path strings; `contains`/`any` are insensitive to duplicates), render the
subset, and mark. -/
def FormatDiffOutput (subset : JValue) (diffs : List Diff) : String :=
  let diffPaths := diffs.map (fun d => pathToString d.path)
  let lines := generateLines subset [] 0
  formatOutput lines diffPaths

/-- The dynamic type of a decoded value as seen by `reflect.TypeOf` in
subset.go: `none` models the nil interface's nil type. -/
inductive GoType where
  | goMap
  | goSlice
  | goFloat64
  | goString
  | goBool
deriving DecidableEq

/-- `reflect.TypeOf` on a decoded JSON value. -/
def goTypeOf : JValue → Option GoType
  | .null => none
  | .obj _ => some .goMap
  | .arr _ => some .goSlice
  | .number _ => some .goFloat64
  | .str _ => some .goString
  | .boolean _ => some .goBool

/-- Go's `%T` rendering of a decoded JSON value, used in subset.go's
type-mismatch messages. -/
def goTypeName : JValue → String
  | .null => "<nil>"
  | .obj _ => "map[string]interface \x7b\x7d"
  | .arr _ => "[]interface \x7b\x7d"
  | .number _ => "float64"
  | .str _ => "string"
  | .boolean _ => "bool"

mutual

/-- `reflect.DeepEqual` on decoded JSON values: scalars by `==`, slices
pointwise, maps by key set with deep-equal values (decoded maps have
distinct keys, which the length check makes faithful). -/
def deepEqual (a b : JValue) : Bool :=
  match a, b with
  | .null, .null => true
  | .boolean x, .boolean y => x == y
  | .number x, .number y => x == y
  | .str x, .str y => x == y
  | .obj f1, .obj f2 => f1.length == f2.length && deepEqualFields f1 f2
  | .arr l1, .arr l2 => deepEqualElems l1 l2
  | _, _ => false
termination_by (sizeOf a, 0)
decreasing_by
  all_goals simp_wf
  all_goals apply Prod.Lex.left
  all_goals simp_arith

/-- Map arm of `deepEqual`: every binding of the first map is matched in
the second. -/
def deepEqualFields (f1 f2 : List (String × JValue)) : Bool :=
  match f1 with
  | [] => true
  | (_k, v) :: rest =>
    (match lookupV _k f2 with
     | none => false
     | some w => deepEqual v w) && deepEqualFields rest f2
termination_by (sizeOf f1, 1)
decreasing_by
  all_goals simp_wf
  all_goals apply Prod.Lex.left
  all_goals simp_arith

/-- Slice arm of `deepEqual`: pointwise. -/
def deepEqualElems (l1 l2 : List JValue) : Bool :=
  match l1, l2 with
  | [], [] => true
  | a :: r1, b :: r2 => deepEqual a b && deepEqualElems r1 r2
  | _, _ => false
termination_by (sizeOf l1, 1)
decreasing_by
  all_goals simp_wf
  all_goals apply Prod.Lex.left
  all_goals simp_arith

end

mutual

/-- `encoding/json.Marshal` of a decoded value (compact form, object keys
sorted, as Go's Marshal does for maps).  String escaping is `goQuote`
and float rendering is as in `formatPrimitive`; no theorem depends on
this text. -/
def jsonMarshal : JValue → String
  | .null => "null"
  | .boolean b => if b then "true" else "false"
  | .number q => if q.den = 1 then toString q.num else toString q
  | .str s => goQuote s
  | .obj f => "\x7b" ++ jmFields f (sortStrings (f.map Prod.fst)) ++ "\x7d"
  | .arr l => "[" ++ jmElems l ++ "]"
termination_by v => (sizeOf v, 0)
decreasing_by
  all_goals simp_wf
  all_goals
    first
      | (apply Prod.Lex.left
         simp_arith)
      | (apply Prod.Lex.right
         simp [sortStrings_length])

/-- Sorted-key member rendering for `jsonMarshal` (the `none` lookup arm
is unreachable: the keys are the map's own keys). -/
def jmFields (f : List (String × JValue)) (keys : List String) : String :=
  match keys with
  | [] => ""
  | key :: rest =>
    match hv : lookupV key f with
    | none => jmFields f rest
    | some v =>
      goQuote key ++ ":" ++ jsonMarshal v
        ++ (if rest.isEmpty then "" else ",") ++ jmFields f rest
termination_by (sizeOf f, keys.length)
decreasing_by
  all_goals simp_wf
  all_goals
    first
      | (apply Prod.Lex.left
         exact lookupV_sizeOf hv)
      | (apply Prod.Lex.right
         omega)

/-- Element rendering for `jsonMarshal`. -/
def jmElems : List JValue → String
  | [] => ""
  | v :: rest =>
    jsonMarshal v ++ (if rest.isEmpty then "" else ",") ++ jmElems rest
termination_by l => (sizeOf l, 1)
decreasing_by
  all_goals simp_wf
  all_goals apply Prod.Lex.left
  all_goals simp_arith

end

/-- `formatValue` of subset.go (lines 111-127): `null` for nil, else the
compact JSON form truncated past 50 bytes to its first 47 bytes plus
`...` (byte and character counts coincide on the ASCII strings of this
development; `json.Marshal` cannot fail on a decoded value, so the error
fallback is unreachable). -/
def formatValue (v : JValue) : String :=
  match v with
  | .null => "null"
  | _ =>
    let s := jsonMarshal v
    if s.length > 50 then s.take 47 ++ "..." else s

/-- `diffIfNotEqual` of subset.go (lines 104-109). -/
def diffIfNotEqual (path : String) (subset superset : JValue) : List String :=
  if deepEqual subset superset then []
  else [path ++ ": value mismatch (subset: " ++ formatValue subset
          ++ ", superset: " ++ formatValue superset ++ ")"]

mutual

/-- `checkSubsetPath` of subset.go (lines 16-41): the string-diff
checker.  After the `reflect.TypeOf` equality test the container arms
can only see same-shaped pairs, so the catch-all arm (Go's type
assertions, which cannot fail there) is only ever reached by scalars. -/
def sCheckSubsetPath (subset superset : JValue) (path : String) :
    Bool × List String :=
  if isNull subset then (isNull superset, diffIfNotEqual path subset superset)
  else if goTypeOf subset ≠ goTypeOf superset then
    (false, [path ++ ": type mismatch (subset: " ++ goTypeName subset
               ++ ", superset: " ++ goTypeName superset ++ ")"])
  else
    match subset, superset with
    | .obj a, .obj b => sCheckObjectSubset a b path
    | .arr a, .arr b => sCheckArraySubset a b path
    | _, _ =>
      if deepEqual subset superset then (true, [])
      else (false, [path ++ ": value mismatch (subset: " ++ formatValue subset
                      ++ ", superset: " ++ formatValue superset ++ ")"])
termination_by (sizeOf subset, 0)
decreasing_by
  all_goals simp_wf
  all_goals apply Prod.Lex.left
  all_goals simp_arith

/-- `checkObjectSubset` of subset.go (lines 43-74). -/
def sCheckObjectSubset (subset superset : List (String × JValue))
    (path : String) : Bool × List String :=
  sObjLoop subset superset path (sortStrings (subset.map Prod.fst))
termination_by (sizeOf subset, subset.length + 1)
decreasing_by
  simp_wf
  apply Prod.Lex.right
  simp [sortStrings_length]

/-- The key loop of subset.go's `checkObjectSubset` (the `none` subset
lookup arm is unreachable: the keys are the subset map's own keys). -/
def sObjLoop (subset superset : List (String × JValue)) (path : String)
    (keys : List String) : Bool × List String :=
  match keys with
  | [] => (true, [])
  | key :: rest =>
    let childPath := path ++ "." ++ key
    match hv : lookupV key subset with
    | none => sObjLoop subset superset path rest
    | some subsetValue =>
      match lookupV key superset with
      | none =>
        let res := sObjLoop subset superset path rest
        (false, (childPath ++ ": missing key in superset") :: res.2)
      | some supersetValue =>
        let child := sCheckSubsetPath subsetValue supersetValue childPath
        let res := sObjLoop subset superset path rest
        if child.1 then res else (false, child.2 ++ res.2)
termination_by (sizeOf subset, keys.length)
decreasing_by
  all_goals simp_wf
  all_goals
    first
      | (apply Prod.Lex.left
         exact lookupV_sizeOf hv)
      | (apply Prod.Lex.right
         omega)

/-- `checkArraySubset` of subset.go (lines 76-96): set mode. -/
def sCheckArraySubset (subset superset : List JValue) (path : String) :
    Bool × List String :=
  sArrLoop subset superset path 0
termination_by (sizeOf subset, 1)
decreasing_by
  simp_wf
  apply Prod.Lex.right
  omega

/-- The element loop of subset.go's `checkArraySubset`. -/
def sArrLoop (subset superset : List JValue) (path : String) (i : ℕ) :
    Bool × List String :=
  match subset with
  | [] => (true, [])
  | subsetElem :: rest =>
    let found := sExistsMatch subsetElem superset
    let res := sArrLoop rest superset path (i + 1)
    if found then res
    else (false, (path ++ "[" ++ toString i
                    ++ "]: element not found in superset array: "
                    ++ formatValue subsetElem) :: res.2)
termination_by (sizeOf subset, 0)
decreasing_by
  all_goals simp_wf
  all_goals apply Prod.Lex.left
  all_goals simp_arith

/-- The inner search of subset.go's `checkArraySubset`, with
`isSubsetOf` (lines 99-102) inlined: boolean-only recursive containment
at the empty path. -/
def sExistsMatch (subsetElem : JValue) (superset : List JValue) : Bool :=
  match superset with
  | [] => false
  | supersetElem :: rest =>
    if (sCheckSubsetPath subsetElem supersetElem "").1 then true
    else sExistsMatch subsetElem rest
termination_by (sizeOf subsetElem, sizeOf superset)
decreasing_by
  all_goals simp_wf
  all_goals apply Prod.Lex.right
  all_goals simp_arith

end

/-- `isSubsetOf` of subset.go (lines 99-102). -/
def sIsSubsetOf (a b : JValue) : Bool := (sCheckSubsetPath a b "").1

/-- `checkSubset` of subset.go (lines 12-14): entry point at path `$`. -/
def sCheckSubset (subset superset : JValue) : Bool × List String :=
  sCheckSubsetPath subset superset "$"

theorem lookupV_mem {key : String} :
    ∀ {l : List (String × JValue)} {v : JValue},
      lookupV key l = some v → (key, v) ∈ l := by
  intro l
  induction l with
  | nil => intro v h; simp [lookupV] at h
  | cons p rest ih =>
    intro v h
    obtain ⟨k, w⟩ := p
    by_cases hk : key = k
    · simp only [lookupV, if_pos hk, Option.some.injEq] at h
      subst hk; subst h; exact List.mem_cons_self _ _
    · simp only [lookupV, if_neg hk] at h
      exact List.mem_cons_of_mem _ (ih h)

theorem existsMatch_of_mem {e se : JValue} {sup : List JValue}
    (hm : se ∈ sup) (h : (checkSubsetPath e se []).1 = true) :
    existsMatch e sup = true := by
  induction sup with
  | nil => cases hm
  | cons x rest ih =>
    rcases List.mem_cons.mp hm with rfl | hm'
    · simp [existsMatch, h]
    · by_cases hx : (checkSubsetPath e x []).1 = true
      · simp [existsMatch, hx]
      · simp [existsMatch, hx, ih hm']

theorem arrLoop_all_found :
    ∀ (sub sup : List JValue) (path : NPath) (i : ℕ),
      (∀ e ∈ sub, existsMatch e sup = true) →
      arrLoop sub sup path i = (true, []) := by
  intro sub
  induction sub with
  | nil => intro sup path i _; simp [arrLoop]
  | cons e rest ih =>
    intro sup path i h
    have he := h e (List.mem_cons_self _ _)
    have hrest := ih sup path (i + 1) (fun x hx => h x (List.mem_cons_of_mem _ hx))
    simp [arrLoop, he, hrest]

theorem objLoop_refl :
    ∀ (keys : List String) (fields : List (String × JValue)) (path : NPath),
      (∀ k v, lookupV k fields = some v → ∀ p, checkSubsetPath v v p = (true, [])) →
      objLoop fields fields path keys = (true, []) := by
  intro keys
  induction keys with
  | nil => intro fields path _; simp [objLoop]
  | cons key rest ih =>
    intro fields path h
    simp only [objLoop]
    split
    · exact ih fields path h
    · rename_i v hv
      rw [hv]
      simp [h key v hv, ih fields path h]

theorem check_self_aux :
    ∀ (n : ℕ) (v : JValue), sizeOf v ≤ n → ∀ path,
      checkSubsetPath v v path = (true, []) := by
  intro n
  induction n with
  | zero => intro v h; exfalso; cases v <;> simp_arith at h
  | succ n ih =>
    intro v h path
    cases v with
    | null => simp [checkSubsetPath, isNull]
    | boolean b => simp [checkSubsetPath, scalarsEqual]
    | number q => simp [checkSubsetPath, scalarsEqual]
    | str s => simp [checkSubsetPath, scalarsEqual]
    | obj fields =>
      have hsz : sizeOf fields ≤ n := by
        simp only [JValue.obj.sizeOf_spec] at h; omega
      simp only [checkSubsetPath, checkObjectSubset]
      apply objLoop_refl
      intro k v hkv p
      have := lookupV_sizeOf hkv
      exact ih v (by omega) p
    | arr elems =>
      have hsz : sizeOf elems ≤ n := by
        simp only [JValue.arr.sizeOf_spec] at h; omega
      simp only [checkSubsetPath, checkArraySubset]
      apply arrLoop_all_found
      intro e he
      have := List.sizeOf_lt_of_mem he
      exact existsMatch_of_mem he (by simp [ih e (by omega) []])

theorem arrLoop_verdict_iff :
    ∀ (sub sup : List JValue) (path : NPath) (i : ℕ),
      ((arrLoop sub sup path i).1 = true ↔ (arrLoop sub sup path i).2 = []) := by
  intro sub
  induction sub with
  | nil => intro sup path i; simp [arrLoop]
  | cons e rest ih =>
    intro sup path i
    by_cases hf : existsMatch e sup = true
    · simpa [arrLoop, hf] using ih sup path (i + 1)
    · simp [arrLoop, hf]

theorem objLoop_verdict_iff :
    ∀ (keys : List String) (sub sup : List (String × JValue)) (path : NPath),
      (∀ k sv supv, lookupV k sub = some sv → lookupV k sup = some supv →
        ∀ p, ((checkSubsetPath sv supv p).1 = true ↔ (checkSubsetPath sv supv p).2 = [])) →
      ((objLoop sub sup path keys).1 = true ↔ (objLoop sub sup path keys).2 = []) := by
  intro keys
  induction keys with
  | nil => intro sub sup path _; simp [objLoop]
  | cons key rest ih =>
    intro sub sup path hrec
    simp only [objLoop]
    split
    · exact ih sub sup path hrec
    · rename_i sv hv
      split
      · simp
      · rename_i supv hsup
        by_cases hc : (checkSubsetPath sv supv (copyPath path ++ [PathSeg.name key])).1 = true
        · simpa [hc] using ih sub sup path hrec
        · have h2 : ¬ ((checkSubsetPath sv supv (copyPath path ++ [PathSeg.name key])).2 = []) :=
            fun he => hc ((hrec key sv supv hv hsup _).mpr he)
          simp [hc, h2]

theorem check_verdict_iff_aux :
    ∀ (n : ℕ) (sub : JValue), sizeOf sub ≤ n → ∀ (sup : JValue) (path : NPath),
      ((checkSubsetPath sub sup path).1 = true ↔ (checkSubsetPath sub sup path).2 = []) := by
  intro n
  induction n with
  | zero => intro v h; exfalso; cases v <;> simp_arith at h
  | succ n ih =>
    intro sub h sup path
    cases sub with
    | null =>
      by_cases hn : isNull sup = true
      · simp [checkSubsetPath, hn]
      · simp [checkSubsetPath, hn]
    | boolean b =>
      by_cases hs : scalarsEqual (.boolean b) sup = true
      · simp [checkSubsetPath, hs]
      · simp [checkSubsetPath, hs]
    | number q =>
      by_cases hs : scalarsEqual (.number q) sup = true
      · simp [checkSubsetPath, hs]
      · simp [checkSubsetPath, hs]
    | str s =>
      by_cases hs : scalarsEqual (.str s) sup = true
      · simp [checkSubsetPath, hs]
      · simp [checkSubsetPath, hs]
    | obj fields =>
      have hsz : sizeOf fields ≤ n := by
        simp only [JValue.obj.sizeOf_spec] at h; omega
      cases sup with
      | obj supFields =>
        simp only [checkSubsetPath, checkObjectSubset]
        apply objLoop_verdict_iff
        intro k sv supv hkv _ p
        have := lookupV_sizeOf hkv
        exact ih sv (by omega) supv p
      | null => simp [checkSubsetPath]
      | boolean b => simp [checkSubsetPath]
      | number q => simp [checkSubsetPath]
      | str s => simp [checkSubsetPath]
      | arr l => simp [checkSubsetPath]
    | arr elems =>
      cases sup with
      | arr supElems =>
        simp only [checkSubsetPath, checkArraySubset]
        exact arrLoop_verdict_iff elems supElems path 0
      | null => simp [checkSubsetPath]
      | boolean b => simp [checkSubsetPath]
      | number q => simp [checkSubsetPath]
      | str s => simp [checkSubsetPath]
      | obj l => simp [checkSubsetPath]

/-- C5: for every JSON value `v`, `check(v, v)` returns the verdict
`true` together with an empty difference list (reflexivity of the typed
checker `checkSubsetWithDiffs` of diff.go). -/
theorem c5_check_reflexive (v : JValue) : checkSubsetWithDiffs v v = (true, []) := by
  simpa [checkSubsetWithDiffs] using check_self_aux (sizeOf v) v le_rfl []

/-- C9: at every recursion level of the typed checker, the boolean
verdict is `false` exactly when the returned difference list is
non-empty: `checkSubsetPath` (hence `checkSubsetWithDiffs`) returns
`true` iff its diff list is `[]`. -/
theorem c9_verdict_iff_diffs_empty (subset superset : JValue) (path : NPath) :
    ((checkSubsetPath subset superset path).1 = true ↔
      (checkSubsetPath subset superset path).2 = []) ∧
    ((checkSubsetWithDiffs subset superset).1 = true ↔
      (checkSubsetWithDiffs subset superset).2 = []) := by
  refine ⟨check_verdict_iff_aux (sizeOf subset) subset le_rfl superset path, ?_⟩
  simpa [checkSubsetWithDiffs] using
    check_verdict_iff_aux (sizeOf subset) subset le_rfl superset []

/-- The `ok` flag of Go's type assertion `subset.(map[string]interface{})`. -/
def isObj : JValue → Bool
  | .obj _ => true
  | _ => false

/-- The `ok` flag of Go's type assertion `subset.([]interface{})`. -/
def isArr : JValue → Bool
  | .arr _ => true
  | _ => false

theorem arrLoop_path_prefix :
    ∀ (sub sup : List JValue) (path : NPath) (i : ℕ) (d : Diff),
      d ∈ (arrLoop sub sup path i).2 → path <+: d.path := by
  intro sub
  induction sub with
  | nil => intro sup path i d hd; simp [arrLoop] at hd
  | cons e rest ih =>
    intro sup path i d hd
    by_cases hf : existsMatch e sup = true
    · exact ih sup path (i + 1) d (by simpa [arrLoop, hf] using hd)
    · simp only [arrLoop, hf, Bool.false_eq_true, if_false, List.mem_cons] at hd
      rcases hd with rfl | hd'
      · exact List.prefix_append path [PathSeg.idx i]
      · exact ih sup path (i + 1) d hd'

theorem objLoop_path_prefix :
    ∀ (keys : List String) (sub sup : List (String × JValue)) (path : NPath),
      (∀ k sv supv p, lookupV k sub = some sv → lookupV k sup = some supv →
        ∀ d ∈ (checkSubsetPath sv supv p).2, p <+: d.path) →
      ∀ d ∈ (objLoop sub sup path keys).2, path <+: d.path := by
  intro keys
  induction keys with
  | nil => intro sub sup path _ d hd; simp [objLoop] at hd
  | cons key rest ih =>
    intro sub sup path hrec d hd
    simp only [objLoop] at hd
    revert hd
    split
    · exact fun hd => ih sub sup path hrec d hd
    · rename_i sv hv
      split
      · intro hd
        simp only [List.mem_cons] at hd
        rcases hd with rfl | hd'
        · exact List.prefix_append path [PathSeg.name key]
        · exact ih sub sup path hrec d hd'
      · rename_i supv hsup
        by_cases hc : (checkSubsetPath sv supv (copyPath path ++ [PathSeg.name key])).1 = true
        · intro hd
          simp only [hc, if_true] at hd
          exact ih sub sup path hrec d hd
        · intro hd
          simp only [hc, Bool.false_eq_true, if_false, List.mem_append] at hd
          rcases hd with hd' | hd'
          · have h1 := hrec key sv supv (copyPath path ++ [PathSeg.name key]) hv hsup d hd'
            exact (List.prefix_append path [PathSeg.name key]).trans h1
          · exact ih sub sup path hrec d hd'

theorem check_path_prefix_aux :
    ∀ (n : ℕ) (sub : JValue), sizeOf sub ≤ n → ∀ (sup : JValue) (path : NPath),
      ∀ d ∈ (checkSubsetPath sub sup path).2, path <+: d.path := by
  intro n
  induction n with
  | zero => intro v h; exfalso; cases v <;> simp_arith at h
  | succ n ih =>
    intro sub h sup path d hd
    cases sub with
    | null =>
      by_cases hn : isNull sup = true
      · simp [checkSubsetPath, hn] at hd
      · simp [checkSubsetPath, hn, copyPath] at hd
        subst hd; exact List.prefix_refl _
    | boolean b =>
      by_cases hs : scalarsEqual (.boolean b) sup = true
      · simp [checkSubsetPath, hs] at hd
      · simp [checkSubsetPath, hs, copyPath] at hd; subst hd; exact List.prefix_refl _
    | number q =>
      by_cases hs : scalarsEqual (.number q) sup = true
      · simp [checkSubsetPath, hs] at hd
      · simp [checkSubsetPath, hs, copyPath] at hd; subst hd; exact List.prefix_refl _
    | str s =>
      by_cases hs : scalarsEqual (.str s) sup = true
      · simp [checkSubsetPath, hs] at hd
      · simp [checkSubsetPath, hs, copyPath] at hd; subst hd; exact List.prefix_refl _
    | obj fields =>
      have hsz : sizeOf fields ≤ n := by
        simp only [JValue.obj.sizeOf_spec] at h; omega
      cases sup with
      | obj supFields =>
        simp only [checkSubsetPath, checkObjectSubset] at hd
        refine objLoop_path_prefix _ fields supFields path ?_ d hd
        intro k sv supv p hkv _ d' hd'
        have := lookupV_sizeOf hkv
        exact ih sv (by omega) supv p d' hd'
      | null => simp [checkSubsetPath, copyPath] at hd; subst hd; exact List.prefix_refl _
      | boolean b => simp [checkSubsetPath, copyPath] at hd; subst hd; exact List.prefix_refl _
      | number q => simp [checkSubsetPath, copyPath] at hd; subst hd; exact List.prefix_refl _
      | str s => simp [checkSubsetPath, copyPath] at hd; subst hd; exact List.prefix_refl _
      | arr l => simp [checkSubsetPath, copyPath] at hd; subst hd; exact List.prefix_refl _
    | arr elems =>
      cases sup with
      | arr supElems =>
        simp only [checkSubsetPath, checkArraySubset] at hd
        exact arrLoop_path_prefix elems supElems path 0 d hd
      | null => simp [checkSubsetPath, copyPath] at hd; subst hd; exact List.prefix_refl _
      | boolean b => simp [checkSubsetPath, copyPath] at hd; subst hd; exact List.prefix_refl _
      | number q => simp [checkSubsetPath, copyPath] at hd; subst hd; exact List.prefix_refl _
      | str s => simp [checkSubsetPath, copyPath] at hd; subst hd; exact List.prefix_refl _
      | obj l => simp [checkSubsetPath, copyPath] at hd; subst hd; exact List.prefix_refl _

/-- C7: when the subset node is an object (resp. array) and the superset
node is not, the typed checker records exactly one type-mismatch
difference at that node's path and does not descend; and in general
every recorded difference sits at or below the path of the call that
records it, so differences are never re-emitted at ancestor paths. -/
theorem c7_type_mismatch_short_circuit :
    (∀ (sub sup : JValue) (path : NPath),
        ((isObj sub = true ∧ isObj sup = false) ∨
         (isArr sub = true ∧ isArr sup = false)) →
        checkSubsetPath sub sup path =
          (false, [{ path := path, dtype := DiffType.typeMismatch,
                     subsetValue := some sub, supersetValue := some sup }])) ∧
    (∀ (sub sup : JValue) (path : NPath),
        ∀ d ∈ (checkSubsetPath sub sup path).2, path <+: d.path) := by
  constructor
  · intro sub sup path h
    cases sub with
    | obj f =>
      cases sup with
      | obj g =>
        exfalso
        rcases h with ⟨_, h2⟩ | ⟨h1, _⟩
        · simp [isObj] at h2
        · simp [isArr] at h1
      | null => simp [checkSubsetPath, copyPath]
      | boolean b => simp [checkSubsetPath, copyPath]
      | number q => simp [checkSubsetPath, copyPath]
      | str s => simp [checkSubsetPath, copyPath]
      | arr l => simp [checkSubsetPath, copyPath]
    | arr f =>
      cases sup with
      | arr g =>
        exfalso
        rcases h with ⟨h1, _⟩ | ⟨_, h2⟩
        · simp [isObj] at h1
        · simp [isArr] at h2
      | null => simp [checkSubsetPath, copyPath]
      | boolean b => simp [checkSubsetPath, copyPath]
      | number q => simp [checkSubsetPath, copyPath]
      | str s => simp [checkSubsetPath, copyPath]
      | obj l => simp [checkSubsetPath, copyPath]
    | null => exfalso; rcases h with ⟨h1, _⟩ | ⟨h1, _⟩ <;> simp [isObj, isArr] at h1
    | boolean b => exfalso; rcases h with ⟨h1, _⟩ | ⟨h1, _⟩ <;> simp [isObj, isArr] at h1
    | number q => exfalso; rcases h with ⟨h1, _⟩ | ⟨h1, _⟩ <;> simp [isObj, isArr] at h1
    | str s => exfalso; rcases h with ⟨h1, _⟩ | ⟨h1, _⟩ <;> simp [isObj, isArr] at h1
  · intro sub sup path d hd
    exact check_path_prefix_aux (sizeOf sub) sub le_rfl sup path d hd

/-- Witness for C7 at a concrete input: an object subset against a
number superset yields the single type-mismatch diff at the call path,
and that diff's path extends the call path. -/
theorem c7_type_mismatch_short_circuit_witness :
    checkSubsetPath (JValue.obj [("a", JValue.number 1)]) (JValue.number 2)
        [PathSeg.name "x"] =
      (false, [{ path := [PathSeg.name "x"], dtype := DiffType.typeMismatch,
                 subsetValue := some (JValue.obj [("a", JValue.number 1)]),
                 supersetValue := some (JValue.number 2) }]) ∧
    [PathSeg.name "x"] <+:
      ({ path := [PathSeg.name "x"], dtype := DiffType.typeMismatch,
         subsetValue := some (JValue.obj [("a", JValue.number 1)]),
         supersetValue := some (JValue.number 2) } : Diff).path := by
  constructor
  · exact c7_type_mismatch_short_circuit.1 (JValue.obj [("a", JValue.number 1)])
      (JValue.number 2) [PathSeg.name "x"] (Or.inl ⟨rfl, rfl⟩)
  · apply c7_type_mismatch_short_circuit.2 (JValue.obj [("a", JValue.number 1)])
      (JValue.number 2) [PathSeg.name "x"]
    rw [c7_type_mismatch_short_circuit.1 (JValue.obj [("a", JValue.number 1)])
      (JValue.number 2) [PathSeg.name "x"] (Or.inl ⟨rfl, rfl⟩)]
    simp

theorem sObjLoop_agree :
    ∀ (keys : List String) (sub sup : List (String × JValue))
      (npath : NPath) (spath : String),
      (∀ k sv supv, lookupV k sub = some sv → lookupV k sup = some supv →
        ∀ np sp, (checkSubsetPath sv supv np).1 = (sCheckSubsetPath sv supv sp).1) →
      (objLoop sub sup npath keys).1 = (sObjLoop sub sup spath keys).1 := by
  intro keys
  induction keys with
  | nil => intro sub sup npath spath _; simp [objLoop, sObjLoop]
  | cons key rest ih =>
    intro sub sup npath spath hrec
    simp only [objLoop, sObjLoop]
    cases hv : lookupV key sub with
    | none => simp only [hv]; exact ih sub sup npath spath hrec
    | some sv =>
      simp only [hv]
      cases hsup : lookupV key sup with
      | none => simp only [hsup]
      | some supv =>
        simp only [hsup]
        have hc := hrec key sv supv hv hsup
          (copyPath npath ++ [PathSeg.name key]) (spath ++ "." ++ key)
        rw [hc]
        by_cases hb : (sCheckSubsetPath sv supv (spath ++ "." ++ key)).1 = true
        · simpa [hb] using ih sub sup npath spath hrec
        · simp [hb]

theorem sExistsMatch_agree :
    ∀ (e : JValue) (sup : List JValue),
      (∀ se ∈ sup, (checkSubsetPath e se []).1 = (sCheckSubsetPath e se "").1) →
      existsMatch e sup = sExistsMatch e sup := by
  intro e sup
  induction sup with
  | nil => intro _; simp [existsMatch, sExistsMatch]
  | cons se rest ih =>
    intro h
    have h1 := h se (List.mem_cons_self _ _)
    simp only [existsMatch, sExistsMatch]
    rw [h1]
    by_cases hb : (sCheckSubsetPath e se "").1 = true
    · simp [hb]
    · simpa [hb] using ih (fun x hx => h x (List.mem_cons_of_mem _ hx))

theorem sArrLoop_agree :
    ∀ (sub sup : List JValue) (npath : NPath) (spath : String) (i : ℕ),
      (∀ e ∈ sub, ∀ se ∈ sup, (checkSubsetPath e se []).1 = (sCheckSubsetPath e se "").1) →
      (arrLoop sub sup npath i).1 = (sArrLoop sub sup spath i).1 := by
  intro sub
  induction sub with
  | nil => intro sup npath spath i _; simp [arrLoop, sArrLoop]
  | cons e rest ih =>
    intro sup npath spath i hrec
    have hf := sExistsMatch_agree e sup (hrec e (List.mem_cons_self _ _))
    simp only [arrLoop, sArrLoop]
    rw [hf]
    by_cases hb : sExistsMatch e sup = true
    · simpa [hb] using
        ih sup npath spath (i + 1) (fun x hx => hrec x (List.mem_cons_of_mem _ hx))
    · simp [hb]

theorem check_agree_aux :
    ∀ (n : ℕ) (sub : JValue), sizeOf sub ≤ n → ∀ (sup : JValue) (np : NPath) (sp : String),
      (checkSubsetPath sub sup np).1 = (sCheckSubsetPath sub sup sp).1 := by
  intro n
  induction n with
  | zero => intro v h; exfalso; cases v <;> simp_arith at h
  | succ n ih =>
    intro sub h sup np sp
    cases sub with
    | null =>
      cases sup <;> simp [checkSubsetPath, sCheckSubsetPath, isNull]
    | boolean b =>
      cases sup <;>
        simp [checkSubsetPath, sCheckSubsetPath, isNull, goTypeOf, scalarsEqual, deepEqual] <;>
        (try (split <;> simp_all))
    | number q =>
      cases sup <;>
        simp [checkSubsetPath, sCheckSubsetPath, isNull, goTypeOf, scalarsEqual, deepEqual] <;>
        (try (split <;> simp_all))
    | str s =>
      cases sup <;>
        simp [checkSubsetPath, sCheckSubsetPath, isNull, goTypeOf, scalarsEqual, deepEqual] <;>
        (try (split <;> simp_all))
    | obj fields =>
      have hsz : sizeOf fields ≤ n := by
        simp only [JValue.obj.sizeOf_spec] at h; omega
      cases sup with
      | obj supFields =>
        simp only [checkSubsetPath, checkObjectSubset, sCheckSubsetPath,
          sCheckObjectSubset, isNull, goTypeOf, Bool.false_eq_true, if_false,
          ne_eq, Option.some.injEq, not_true_eq_false, reduceCtorEq]
        apply sObjLoop_agree
        intro k sv supv hkv _ np' sp'
        have := lookupV_sizeOf hkv
        exact ih sv (by omega) supv np' sp'
      | null => simp [checkSubsetPath, sCheckSubsetPath, isNull, goTypeOf]
      | boolean b => simp [checkSubsetPath, sCheckSubsetPath, isNull, goTypeOf]
      | number q => simp [checkSubsetPath, sCheckSubsetPath, isNull, goTypeOf]
      | str s => simp [checkSubsetPath, sCheckSubsetPath, isNull, goTypeOf]
      | arr l => simp [checkSubsetPath, sCheckSubsetPath, isNull, goTypeOf]
    | arr elems =>
      have hsz : sizeOf elems ≤ n := by
        simp only [JValue.arr.sizeOf_spec] at h; omega
      cases sup with
      | arr supElems =>
        simp only [checkSubsetPath, checkArraySubset, sCheckSubsetPath,
          sCheckArraySubset, isNull, goTypeOf, Bool.false_eq_true, if_false,
          ne_eq, Option.some.injEq, not_true_eq_false, reduceCtorEq]
        apply sArrLoop_agree
        intro e he se _
        have := List.sizeOf_lt_of_mem he
        exact ih e (by omega) se [] ""
      | null => simp [checkSubsetPath, sCheckSubsetPath, isNull, goTypeOf]
      | boolean b => simp [checkSubsetPath, sCheckSubsetPath, isNull, goTypeOf]
      | number q => simp [checkSubsetPath, sCheckSubsetPath, isNull, goTypeOf]
      | str s => simp [checkSubsetPath, sCheckSubsetPath, isNull, goTypeOf]
      | obj l => simp [checkSubsetPath, sCheckSubsetPath, isNull, goTypeOf]

/-- C10: the two checker implementations of the repository — `checkSubset`
of subset.go (string-formatted diffs, reflect-based type test) and
`checkSubsetWithDiffs` of diff.go (typed `Diff` records) — return the
same boolean verdict on every pair of decoded JSON values. -/
theorem c10_checkers_agree (subset superset : JValue) :
    (checkSubsetWithDiffs subset superset).1 = (sCheckSubset subset superset).1 := by
  simpa [checkSubsetWithDiffs, sCheckSubset] using
    check_agree_aux (sizeOf subset) subset le_rfl superset [] "$"

theorem existsMatch_true_iff (e : JValue) :
    ∀ (sup : List JValue),
      (existsMatch e sup = true ↔ ∃ se ∈ sup, (checkSubsetPath e se []).1 = true) := by
  intro sup
  induction sup with
  | nil => simp [existsMatch]
  | cons x rest ih =>
    by_cases hx : (checkSubsetPath e x []).1 = true
    · simp [existsMatch, hx]
    · simp [existsMatch, hx, ih]

theorem existsMatch_perm {sup sup' : List JValue} (h : List.Perm sup sup')
    (e : JValue) : existsMatch e sup = existsMatch e sup' := by
  have h1 := existsMatch_true_iff e sup
  have h2 := existsMatch_true_iff e sup'
  have hiff : existsMatch e sup = true ↔ existsMatch e sup' = true := by
    rw [h1, h2]
    constructor
    · rintro ⟨se, hm, hc⟩; exact ⟨se, h.mem_iff.mp hm, hc⟩
    · rintro ⟨se, hm, hc⟩; exact ⟨se, h.mem_iff.mpr hm, hc⟩
  cases ha : existsMatch e sup <;> cases hb : existsMatch e sup' <;> simp_all

theorem arrLoop_congr_sup {sup sup' : List JValue}
    (h : ∀ e, existsMatch e sup = existsMatch e sup') :
    ∀ (sub : List JValue) (path : NPath) (i : ℕ),
      arrLoop sub sup path i = arrLoop sub sup' path i := by
  intro sub
  induction sub with
  | nil => intro path i; simp [arrLoop]
  | cons e rest ih =>
    intro path i
    simp only [arrLoop]
    rw [h e, ih path (i + 1)]

/-- C6 (amended): permuting the superset array never changes the boolean
verdict, and when the subset is itself an array it does not change the
difference list either.  (When the subset is not an array, the single
mismatch difference embeds the whole superset array as its
superset-side value, which changes with the permutation — see the
counterexample.) -/
theorem c6_perm_invariance_amended (sub : JValue) (supElems supElems' : List JValue)
    (h : List.Perm supElems supElems') :
    ((checkSubsetWithDiffs sub (.arr supElems)).1 =
      (checkSubsetWithDiffs sub (.arr supElems')).1) ∧
    (∀ l, sub = JValue.arr l →
      checkSubsetWithDiffs sub (.arr supElems) =
        checkSubsetWithDiffs sub (.arr supElems')) := by
  have harr : ∀ (l : List JValue) (path : NPath) (i : ℕ),
      arrLoop l supElems path i = arrLoop l supElems' path i :=
    arrLoop_congr_sup (existsMatch_perm h)
  constructor
  · cases sub with
    | arr l =>
      simp only [checkSubsetWithDiffs, checkSubsetPath, checkArraySubset]
      rw [harr]
    | null => simp [checkSubsetWithDiffs, checkSubsetPath, isNull]
    | obj f => simp [checkSubsetWithDiffs, checkSubsetPath]
    | boolean b => simp [checkSubsetWithDiffs, checkSubsetPath, scalarsEqual]
    | number q => simp [checkSubsetWithDiffs, checkSubsetPath, scalarsEqual]
    | str s => simp [checkSubsetWithDiffs, checkSubsetPath, scalarsEqual]
  · intro l hl; subst hl
    simp only [checkSubsetWithDiffs, checkSubsetPath, checkArraySubset]
    rw [harr]

/-- Counterexample to C6 as stated: permuting the superset array changes
the recorded difference list (the value-mismatch diff embeds the whole
superset array), even though the verdict is unchanged. -/
theorem c6_counterexample :
    List.Perm [JValue.number 1, JValue.number 2] [JValue.number 2, JValue.number 1] ∧
    checkSubsetWithDiffs JValue.null (.arr [JValue.number 1, JValue.number 2]) ≠
      checkSubsetWithDiffs JValue.null (.arr [JValue.number 2, JValue.number 1]) := by
  constructor
  · exact List.Perm.swap _ _ _
  · simp +decide [checkSubsetWithDiffs, checkSubsetPath, isNull, copyPath]

/-- Witness for the amended C6 at a concrete permutation. -/
theorem c6_perm_invariance_amended_witness :
    ((checkSubsetWithDiffs (.arr [JValue.number 1])
        (.arr [JValue.number 1, JValue.number 2])).1 =
      (checkSubsetWithDiffs (.arr [JValue.number 1])
        (.arr [JValue.number 2, JValue.number 1])).1) ∧
    checkSubsetWithDiffs (.arr [JValue.number 1])
        (.arr [JValue.number 1, JValue.number 2]) =
      checkSubsetWithDiffs (.arr [JValue.number 1])
        (.arr [JValue.number 2, JValue.number 1]) := by
  have h := c6_perm_invariance_amended (.arr [JValue.number 1])
    [JValue.number 1, JValue.number 2] [JValue.number 2, JValue.number 1]
    (List.Perm.swap (JValue.number 2) (JValue.number 1) [])
  exact ⟨h.1, h.2 [JValue.number 1] rfl⟩

/-- A decoded value that is neither nil nor a map nor a slice: the
values that reach the scalar comparison at the end of diff.go's
`checkSubsetPath`. -/
def isScalar : JValue → Bool
  | .boolean _ => true
  | .number _ => true
  | .str _ => true
  | _ => false

/-- C2 (amended): for scalar leaves whose dynamic types differ, the typed
checker of diff.go records a value-mismatch difference, not a
type-mismatch (its type-mismatch kind is reserved for container-shaped
subsets); in particular check on subset `{"a":"1"}` and superset
`{"a":1}` returns false with exactly one value-mismatch at `$.a`.  The
string checker of subset.go reports `type mismatch` for the same pair. -/
theorem c2_scalar_type_diff_value_mismatch :
    (∀ (a b : JValue) (path : NPath), isScalar a = true → isScalar b = true →
        goTypeOf a ≠ goTypeOf b →
        checkSubsetPath a b path =
          (false, [{ path := path, dtype := DiffType.valueMismatch,
                     subsetValue := some a, supersetValue := some b }])) ∧
    checkSubsetWithDiffs (.obj [("a", .str "1")]) (.obj [("a", .number 1)]) =
      (false, [{ path := [PathSeg.name "a"], dtype := DiffType.valueMismatch,
                 subsetValue := some (.str "1"), supersetValue := some (.number 1) }]) ∧
    sCheckSubset (.obj [("a", .str "1")]) (.obj [("a", .number 1)]) =
      (false, ["$.a: type mismatch (subset: string, superset: float64)"]) := by
  refine ⟨?_, ?_, ?_⟩
  · intro a b path ha hb hne
    cases a with
    | null => simp [isScalar] at ha
    | obj f => simp [isScalar] at ha
    | arr l => simp [isScalar] at ha
    | boolean x =>
      cases b with
      | null => simp [isScalar] at hb
      | obj f => simp [isScalar] at hb
      | arr l => simp [isScalar] at hb
      | boolean y => exact absurd rfl hne
      | number y => simp [checkSubsetPath, scalarsEqual, copyPath]
      | str y => simp [checkSubsetPath, scalarsEqual, copyPath]
    | number x =>
      cases b with
      | null => simp [isScalar] at hb
      | obj f => simp [isScalar] at hb
      | arr l => simp [isScalar] at hb
      | boolean y => simp [checkSubsetPath, scalarsEqual, copyPath]
      | number y => exact absurd rfl hne
      | str y => simp [checkSubsetPath, scalarsEqual, copyPath]
    | str x =>
      cases b with
      | null => simp [isScalar] at hb
      | obj f => simp [isScalar] at hb
      | arr l => simp [isScalar] at hb
      | boolean y => simp [checkSubsetPath, scalarsEqual, copyPath]
      | number y => simp [checkSubsetPath, scalarsEqual, copyPath]
      | str y => exact absurd rfl hne
  · simp +decide [checkSubsetWithDiffs, checkSubsetPath, checkObjectSubset, objLoop,
      lookupV, sortStrings, List.insertionSort, List.orderedInsert, scalarsEqual,
      copyPath, isNull]
  · simp +decide [sCheckSubset, sCheckSubsetPath, sCheckObjectSubset, sObjLoop,
      lookupV, sortStrings, List.insertionSort, List.orderedInsert, isNull,
      goTypeOf, goTypeName, deepEqual, formatValue, jsonMarshal, diffIfNotEqual]

/-- Counterexample to C2 as stated: the one difference the typed checker
records for `{"a":"1"}` vs `{"a":1}` has kind value-mismatch, which is
not type-mismatch. -/
theorem c2_counterexample :
    (checkSubsetWithDiffs (.obj [("a", .str "1")]) (.obj [("a", .number 1)])).2.map
        (fun d => d.dtype) = [DiffType.valueMismatch] ∧
    DiffType.valueMismatch ≠ DiffType.typeMismatch := by
  constructor
  · simp +decide [checkSubsetWithDiffs, checkSubsetPath, checkObjectSubset, objLoop,
      lookupV, sortStrings, List.insertionSort, List.orderedInsert, scalarsEqual,
      copyPath, isNull]
  · decide

/-- Witness for the amended C2 at a concrete input. -/
theorem c2_scalar_type_diff_value_mismatch_witness :
    checkSubsetPath (.str "1") (.number 1) [PathSeg.name "a"] =
      (false, [{ path := [PathSeg.name "a"], dtype := DiffType.valueMismatch,
                 subsetValue := some (.str "1"),
                 supersetValue := some (.number 1) }]) :=
  c2_scalar_type_diff_value_mismatch.1 (.str "1") (.number 1) [PathSeg.name "a"]
    rfl rfl (by decide)

/-- C3: every difference path renders as `$` for the root followed by
`.<fieldName>` per object-field descent and `[<index>]` per array-index
descent; for subset `{"a":1,"c":3}` vs superset `{"a":1,"b":2}` the
single missing-key difference renders its path as `$.c`.  (The path
rendering models the external jsonpath library's
`NormalizedPath.String` from the spec's words.) -/
theorem c3_path_rendering :
    pathToString [] = "$" ∧
    (∀ (p : NPath) (s : String),
        pathToString (p ++ [PathSeg.name s]) = pathToString p ++ "." ++ s) ∧
    (∀ (p : NPath) (i : ℕ),
        pathToString (p ++ [PathSeg.idx i]) =
          pathToString p ++ "[" ++ toString i ++ "]") ∧
    checkSubsetWithDiffs (.obj [("a", .number 1), ("c", .number 3)])
        (.obj [("a", .number 1), ("b", .number 2)]) =
      (false, [{ path := [PathSeg.name "c"], dtype := DiffType.missingKey,
                 subsetValue := some (.number 3) }]) ∧
    pathToString [PathSeg.name "c"] = "$.c" := by
  refine ⟨rfl, ?_, ?_, ?_, by decide⟩
  · intro p s
    simp [pathToString, List.foldl_append, segString, String.append_assoc]
  · intro p i
    simp [pathToString, List.foldl_append, segString, String.append_assoc]
  · simp +decide [checkSubsetWithDiffs, checkSubsetPath, checkObjectSubset, objLoop,
      lookupV, sortStrings, List.insertionSort, List.orderedInsert, scalarsEqual,
      copyPath, isNull]

/-- C4: a concrete subset/diff pair on which the renderer's raw
string-prefix marking test marks a line (`"foobar"`) whose tree path is
neither equal to, an ancestor of, nor a descendant of the recorded
difference's path (`$.foo`): the rendered path string `$.foo` is a raw
string prefix of the sibling's rendering `$.foobar`.  (The path
rendering models the external jsonpath library's `NormalizedPath.String`
from the spec's words.) -/
theorem c4_string_prefix_false_positive :
    checkSubsetWithDiffs (.obj [("foo", .number 1), ("foobar", .number 2)])
        (.obj [("foobar", .number 2)]) =
      (false, [{ path := [PathSeg.name "foo"], dtype := DiffType.missingKey,
                 subsetValue := some (.number 1) }]) ∧
    (generateLines (.obj [("foo", .number 1), ("foobar", .number 2)]) [] 0).map
        (fun l => l.path) =
      [[], [PathSeg.name "foo"], [PathSeg.name "foobar"], []] ∧
    shouldMarkAsDiff [PathSeg.name "foobar"] [pathToString [PathSeg.name "foo"]] = true ∧
    ¬ ([PathSeg.name "foo"] <+: [PathSeg.name "foobar"]) ∧
    ¬ ([PathSeg.name "foobar"] <+: [PathSeg.name "foo"]) ∧
    [PathSeg.name "foobar"] ≠ [PathSeg.name "foo"] ∧
    FormatDiffOutput (.obj [("foo", .number 1), ("foobar", .number 2)])
        [{ path := [PathSeg.name "foo"], dtype := DiffType.missingKey,
           subsetValue := some (.number 1) }] =
      " \x7b\n-  \"foo\": 1,\n-  \"foobar\": 2\n \x7d\n" := by
  refine ⟨?_, ?_, by decide, by decide, by decide, by decide, ?_⟩
  · simp +decide [checkSubsetWithDiffs, checkSubsetPath, checkObjectSubset, objLoop,
      lookupV, sortStrings, List.insertionSort, List.orderedInsert, scalarsEqual,
      copyPath, isNull]
  · simp +decide [generateLines, generateObjectLines, objKVLines, generateKeyValueLines,
      lookupV, sortStrings, List.insertionSort, List.orderedInsert, copyPath,
      indentStr, goQuote, goEscapeChar, formatPrimitive]
  · simp +decide [FormatDiffOutput, generateLines, generateObjectLines, objKVLines,
      generateKeyValueLines, appendToLast, formatOutput, shouldMarkAsDiff,
      pathToString, segString, lookupV, sortStrings, List.insertionSort,
      List.orderedInsert, copyPath, indentStr, goQuote, goEscapeChar,
      formatPrimitive, String.join, goHasPrefix]

/-- Scenario 5's subset document `{"user":{"name":"alice","email":"a@x.com"}}`. -/
def c1sub : JValue :=
  .obj [("user", .obj [("name", .str "alice"), ("email", .str "a@x.com")])]

/-- Scenario 5's superset document `{"user":{"name":"alice"}}`. -/
def c1sup : JValue := .obj [("user", .obj [("name", .str "alice")])]

/-- C1 (amended): a rendered line is marked iff its path string equals
some diff's path string or some diff's path string is a strict prefix of
the line's path string — i.e. the line lies at or strictly below a
recorded difference, not on its ancestor chain.  In Scenario 5 only the
`"email"` line is marked; the enclosing `"user": {` and `}` lines and
the `"name"` line are unmarked (the output below has `-` on the email
line only). -/
theorem c1_marking_descendant_rule :
    (∀ (path : NPath) (dps : List String),
        shouldMarkAsDiff path dps = true ↔
          (pathToString path ∈ dps ∨
            ∃ d ∈ dps, goHasPrefix (pathToString path) d = true ∧
              d.length < (pathToString path).length)) ∧
    checkSubsetWithDiffs c1sub c1sup =
      (false, [{ path := [PathSeg.name "user", PathSeg.name "email"],
                 dtype := DiffType.missingKey,
                 subsetValue := some (.str "a@x.com") }]) ∧
    FormatDiffOutput c1sub
        [{ path := [PathSeg.name "user", PathSeg.name "email"],
           dtype := DiffType.missingKey, subsetValue := some (.str "a@x.com") }] =
      " \x7b\n   \"user\": \x7b\n-    \"email\": \"a@x.com\",\n     \"name\": \"alice\"\n   \x7d\n \x7d\n" := by
  refine ⟨?_, ?_, ?_⟩
  · intro path dps
    simp only [shouldMarkAsDiff]
    by_cases hc : dps.contains (pathToString path) = true
    · have hmem : pathToString path ∈ dps := by simpa using hc
      simp [hc, hmem]
    · have hmem : ¬ (pathToString path ∈ dps) := by simpa using hc
      simp [hc, hmem, List.any_eq_true]
  · simp +decide [c1sub, c1sup, checkSubsetWithDiffs, checkSubsetPath,
      checkObjectSubset, objLoop, lookupV, sortStrings, List.insertionSort,
      List.orderedInsert, scalarsEqual, copyPath, isNull]
  · simp +decide [c1sub, FormatDiffOutput, generateLines, generateObjectLines,
      objKVLines, generateKeyValueLines, appendToLast, formatOutput,
      shouldMarkAsDiff, pathToString, segString, lookupV, sortStrings,
      List.insertionSort, List.orderedInsert, copyPath, indentStr, goQuote,
      goEscapeChar, formatPrimitive, String.join, goHasPrefix]

/-- Counterexample to C1 as stated: in Scenario 5 the `"user": {` line's
path is a strict ancestor of the recorded difference's path, yet the
marking test leaves it unmarked. -/
theorem c1_counterexample :
    (checkSubsetWithDiffs c1sub c1sup).2 =
      [{ path := [PathSeg.name "user", PathSeg.name "email"],
         dtype := DiffType.missingKey, subsetValue := some (.str "a@x.com") }] ∧
    [PathSeg.name "user"] <+: [PathSeg.name "user", PathSeg.name "email"] ∧
    ((generateLines c1sub [] 0).map (fun l => l.path)) =
      [[], [PathSeg.name "user"], [PathSeg.name "user", PathSeg.name "email"],
       [PathSeg.name "user", PathSeg.name "name"], [PathSeg.name "user"], []] ∧
    shouldMarkAsDiff [PathSeg.name "user"]
      ((checkSubsetWithDiffs c1sub c1sup).2.map (fun d => pathToString d.path)) =
        false := by
  refine ⟨?_, by decide, ?_, ?_⟩
  · simp +decide [c1sub, c1sup, checkSubsetWithDiffs, checkSubsetPath,
      checkObjectSubset, objLoop, lookupV, sortStrings, List.insertionSort,
      List.orderedInsert, scalarsEqual, copyPath, isNull]
  · simp +decide [c1sub, generateLines, generateObjectLines, objKVLines,
      generateKeyValueLines, lookupV, sortStrings, List.insertionSort,
      List.orderedInsert, copyPath, indentStr, goQuote, goEscapeChar,
      formatPrimitive]
  · simp +decide [c1sub, c1sup, checkSubsetWithDiffs, checkSubsetPath,
      checkObjectSubset, objLoop, lookupV, sortStrings, List.insertionSort,
      List.orderedInsert, scalarsEqual, copyPath, isNull, shouldMarkAsDiff,
      pathToString, segString, goHasPrefix]

mutual

/-- Structural equality of decoded values up to object iteration order:
two association lists denote the same Go map when one is a permutation
of a field-wise equal copy of the other, recursively.  Two decoded
values are "structurally equal inputs" in the sense of the spec exactly
when they are related by `StructEq`. -/
inductive StructEq : JValue → JValue → Prop where
  | null : StructEq .null .null
  | boolean (b : Bool) : StructEq (.boolean b) (.boolean b)
  | number (q : ℚ) : StructEq (.number q) (.number q)
  | str (s : String) : StructEq (.str s) (.str s)
  | arr {xs ys : List JValue} :
      StructEqList xs ys → StructEq (.arr xs) (.arr ys)
  | obj {xs ys zs : List (String × JValue)} :
      StructEqFields xs ys → List.Perm ys zs → StructEq (.obj xs) (.obj zs)

/-- Pointwise `StructEq` on element lists. -/
inductive StructEqList : List JValue → List JValue → Prop where
  | nil : StructEqList [] []
  | cons {x y : JValue} {xs ys : List JValue} :
      StructEq x y → StructEqList xs ys → StructEqList (x :: xs) (y :: ys)

/-- Pointwise same-key, `StructEq`-value relation on field lists. -/
inductive StructEqFields :
    List (String × JValue) → List (String × JValue) → Prop where
  | nil : StructEqFields [] []
  | cons {k : String} {v w : JValue} {xs ys : List (String × JValue)} :
      StructEq v w → StructEqFields xs ys →
      StructEqFields ((k, v) :: xs) ((k, w) :: ys)

end

/-- Well-formedness of a decoded value: object keys are distinct at
every level, as they are in any map produced by `encoding/json`. -/
inductive WFJson : JValue → Prop where
  | null : WFJson .null
  | boolean (b : Bool) : WFJson (.boolean b)
  | number (q : ℚ) : WFJson (.number q)
  | str (s : String) : WFJson (.str s)
  | arr {elems : List JValue} :
      (∀ e ∈ elems, WFJson e) → WFJson (.arr elems)
  | obj {fields : List (String × JValue)} :
      (fields.map Prod.fst).Nodup →
      (∀ p ∈ fields, WFJson p.2) → WFJson (.obj fields)

/-- Lift `StructEq` to the optional diff payload fields. -/
def optStructEq : Option JValue → Option JValue → Prop
  | none, none => True
  | some a, some b => StructEq a b
  | _, _ => False

/-- Two `Diff` records that agree on path and kind and whose payloads
are structurally equal. -/
def diffEquiv (d d' : Diff) : Prop :=
  d.path = d'.path ∧ d.dtype = d'.dtype ∧
    optStructEq d.subsetValue d'.subsetValue ∧
    optStructEq d.supersetValue d'.supersetValue

theorem structEq_isNull {a b : JValue} (h : StructEq a b) : isNull a = isNull b := by
  cases h <;> rfl

theorem structEq_scalarsEqual {a a' b b' : JValue}
    (ha : StructEq a a') (hb : StructEq b b') :
    scalarsEqual a b = scalarsEqual a' b' := by
  cases ha <;> cases hb <;> rfl

theorem structEqFields_fst_eq :
    ∀ {xs ys : List (String × JValue)},
      StructEqFields xs ys → xs.map Prod.fst = ys.map Prod.fst := by
  intro xs
  induction xs with
  | nil => intro ys h; cases h; rfl
  | cons p xs' ih =>
    intro ys h
    cases h with
    | cons hvw hrest => simp [ih hrest]

theorem lookupV_rel_of_fields :
    ∀ {xs ys : List (String × JValue)}, StructEqFields xs ys →
      ∀ (k : String), optStructEq (lookupV k xs) (lookupV k ys) := by
  intro xs
  induction xs with
  | nil => intro ys h k; cases h; simp [lookupV, optStructEq]
  | cons p xs' ih =>
    intro ys h k
    cases h with
    | cons hvw hrest =>
      rename_i k1 v w ys'
      by_cases hkk : k = k1
      · simpa [lookupV, hkk, optStructEq] using hvw
      · simpa [lookupV, hkk] using ih hrest k

theorem lookupV_eq_of_perm {l l' : List (String × JValue)}
    (h : List.Perm l l') (hnd : (l.map Prod.fst).Nodup) (k : String) :
    lookupV k l = lookupV k l' := by
  induction h with
  | nil => rfl
  | cons x _ ih =>
    obtain ⟨kx, vx⟩ := x
    by_cases hk : k = kx
    · simp [lookupV, hk]
    · simp only [List.map_cons, List.nodup_cons] at hnd
      simp [lookupV, hk, ih hnd.2]
  | swap x y l =>
    obtain ⟨kx, vx⟩ := x
    obtain ⟨ky, vy⟩ := y
    simp only [List.map_cons, List.nodup_cons, List.mem_cons] at hnd
    have hxy : ky ≠ kx := fun he => hnd.1 (Or.inl he)
    by_cases hk : k = ky
    · subst hk
      simp [lookupV, hxy]
    · by_cases hk2 : k = kx
      · subst hk2
        simp [lookupV, Ne.symm hxy, hk]
      · simp [lookupV, hk, hk2]
  | trans h1 h2 ih1 ih2 =>
    rename_i l₁ l₂ l₃
    have hnd2 : (l₂.map Prod.fst).Nodup := ((h1.map Prod.fst).nodup_iff).mp hnd
    rw [ih1 hnd, ih2 hnd2]

theorem diffEquiv_mk {p p' : NPath} {t t' : DiffType} {sv sv' sp sp' : Option JValue}
    (h1 : p = p') (h2 : t = t') (h3 : optStructEq sv sv') (h4 : optStructEq sp sp') :
    diffEquiv ⟨p, t, sv, sp⟩ ⟨p', t', sv', sp'⟩ :=
  ⟨h1, h2, h3, h4⟩

theorem objLoop_structEq :
    ∀ (keys : List String) (xs zs us ws : List (String × JValue)) (path : NPath),
      (∀ k, optStructEq (lookupV k xs) (lookupV k zs)) →
      (∀ k, optStructEq (lookupV k us) (lookupV k ws)) →
      (∀ k sv sv' wv wv', lookupV k xs = some sv → lookupV k zs = some sv' →
          lookupV k us = some wv → lookupV k ws = some wv' → ∀ p,
          (checkSubsetPath sv wv p).1 = (checkSubsetPath sv' wv' p).1 ∧
          List.Forall₂ diffEquiv (checkSubsetPath sv wv p).2
            (checkSubsetPath sv' wv' p).2) →
      (objLoop xs us path keys).1 = (objLoop zs ws path keys).1 ∧
      List.Forall₂ diffEquiv (objLoop xs us path keys).2
        (objLoop zs ws path keys).2 := by
  intro keys
  induction keys with
  | nil => intro xs zs us ws path _ _ _; simp [objLoop]
  | cons key rest ih =>
    intro xs zs us ws path hsub hsup hrec
    have hsubk := hsub key
    have hsupk := hsup key
    simp only [objLoop]
    cases hx : lookupV key xs with
    | none =>
      cases hz : lookupV key zs with
      | some sv' => rw [hx, hz] at hsubk; simp [optStructEq] at hsubk
      | none => exact ih xs zs us ws path hsub hsup hrec
    | some sv =>
      cases hz : lookupV key zs with
      | none => rw [hx, hz] at hsubk; simp [optStructEq] at hsubk
      | some sv' =>
        rw [hx, hz] at hsubk
        cases hu : lookupV key us with
        | none =>
          cases hw : lookupV key ws with
          | some wv' => rw [hu, hw] at hsupk; simp [optStructEq] at hsupk
          | none =>
            have hrest := ih xs zs us ws path hsub hsup hrec
            refine ⟨by first | rfl | trivial, ?_⟩
            exact List.Forall₂.cons (diffEquiv_mk rfl rfl hsubk True.intro) hrest.2
        | some wv =>
          cases hw : lookupV key ws with
          | none => rw [hu, hw] at hsupk; simp [optStructEq] at hsupk
          | some wv' =>
            rw [hu, hw] at hsupk
            have hchild := hrec key sv sv' wv wv' hx hz hu hw
              (copyPath path ++ [PathSeg.name key])
            have hrest := ih xs zs us ws path hsub hsup hrec
            by_cases hb :
                (checkSubsetPath sv wv (copyPath path ++ [PathSeg.name key])).1 = true
            · have hb' :
                  (checkSubsetPath sv' wv' (copyPath path ++ [PathSeg.name key])).1 = true := by
                rw [← hchild.1]; exact hb
              simpa [hb, hb'] using hrest
            · have hb' :
                  ¬ ((checkSubsetPath sv' wv' (copyPath path ++ [PathSeg.name key])).1 = true) := by
                rw [← hchild.1]; exact hb
              simp only [hb, hb', Bool.false_eq_true, if_false]
              refine ⟨by first | rfl | trivial, ?_⟩
              exact List.rel_append hchild.2 hrest.2

theorem existsMatch_structEq :
    ∀ {us ws : List JValue}, StructEqList us ws →
      ∀ {v v' : JValue},
      (∀ w ∈ us, ∀ w', StructEq w w' →
        (checkSubsetPath v w []).1 = (checkSubsetPath v' w' []).1) →
      existsMatch v us = existsMatch v' ws := by
  intro us
  induction us with
  | nil => intro ws h v v' _; cases h; simp [existsMatch]
  | cons w us' ih =>
    intro ws h v v' hrec
    cases h with
    | cons hww hrest =>
      rename_i w' ws'
      have h1 := hrec w (List.mem_cons_self _ _) w' hww
      simp only [existsMatch]
      rw [h1]
      by_cases hb : (checkSubsetPath v' w' []).1 = true
      · simp [hb]
      · simpa [hb] using
          ih hrest (fun x hx x' hxx' => hrec x (List.mem_cons_of_mem _ hx) x' hxx')

theorem arrLoop_structEq :
    ∀ {xs ys : List JValue}, StructEqList xs ys →
      ∀ (us ws : List JValue) (path : NPath) (i : ℕ),
      (∀ v ∈ xs, ∀ v', StructEq v v' → existsMatch v us = existsMatch v' ws) →
      (arrLoop xs us path i).1 = (arrLoop ys ws path i).1 ∧
      List.Forall₂ diffEquiv (arrLoop xs us path i).2 (arrLoop ys ws path i).2 := by
  intro xs
  induction xs with
  | nil => intro ys h us ws path i _; cases h; simp [arrLoop]
  | cons v xs' ih =>
    intro ys h us ws path i hex
    cases h with
    | cons hvv hrest =>
      rename_i v' ys'
      have hf := hex v (List.mem_cons_self _ _) v' hvv
      simp only [arrLoop]
      rw [hf]
      have hrec := ih hrest us ws path (i + 1)
        (fun x hx x' hxx' => hex x (List.mem_cons_of_mem _ hx) x' hxx')
      by_cases hb : existsMatch v' ws = true
      · simpa [hb] using hrec
      · simp only [hb, Bool.false_eq_true, if_false]
        refine ⟨by first | rfl | trivial, ?_⟩
        exact List.Forall₂.cons (diffEquiv_mk rfl rfl hvv True.intro) hrec.2

theorem check_structEq_aux :
    ∀ (n : ℕ) (sub : JValue), sizeOf sub ≤ n →
      ∀ (sub' sup sup' : JValue) (path : NPath),
        StructEq sub sub' → StructEq sup sup' → WFJson sub → WFJson sup →
        (checkSubsetPath sub sup path).1 = (checkSubsetPath sub' sup' path).1 ∧
        List.Forall₂ diffEquiv (checkSubsetPath sub sup path).2
          (checkSubsetPath sub' sup' path).2 := by
  intro n
  induction n with
  | zero => intro v h; exfalso; cases v <;> simp_arith at h
  | succ n ih =>
    intro sub h sub' sup sup' path hsub hsup wsub wsup
    cases hsub with
    | null =>
      by_cases hn : isNull sup = true
      · have hn' : isNull sup' = true := by rw [← structEq_isNull hsup]; exact hn
        simp [checkSubsetPath, hn, hn']
      · have hn' : ¬ (isNull sup' = true) := by rw [← structEq_isNull hsup]; exact hn
        simp only [checkSubsetPath, hn, hn', Bool.false_eq_true, if_false]
        refine ⟨by first | rfl | trivial, ?_⟩
        exact List.Forall₂.cons (diffEquiv_mk rfl rfl StructEq.null hsup) List.Forall₂.nil
    | boolean b =>
      have hse : scalarsEqual (.boolean b) sup = scalarsEqual (.boolean b) sup' :=
        structEq_scalarsEqual (StructEq.boolean b) hsup
      by_cases hs : scalarsEqual (.boolean b) sup = true
      · have hs' : scalarsEqual (.boolean b) sup' = true := by rw [← hse]; exact hs
        simp [checkSubsetPath, hs, hs']
      · have hs' : ¬ (scalarsEqual (.boolean b) sup' = true) := by rw [← hse]; exact hs
        simp only [checkSubsetPath, hs, hs', Bool.false_eq_true, if_false]
        refine ⟨by first | rfl | trivial, ?_⟩
        exact List.Forall₂.cons (diffEquiv_mk rfl rfl (StructEq.boolean b) hsup)
          List.Forall₂.nil
    | number q =>
      have hse : scalarsEqual (.number q) sup = scalarsEqual (.number q) sup' :=
        structEq_scalarsEqual (StructEq.number q) hsup
      by_cases hs : scalarsEqual (.number q) sup = true
      · have hs' : scalarsEqual (.number q) sup' = true := by rw [← hse]; exact hs
        simp [checkSubsetPath, hs, hs']
      · have hs' : ¬ (scalarsEqual (.number q) sup' = true) := by rw [← hse]; exact hs
        simp only [checkSubsetPath, hs, hs', Bool.false_eq_true, if_false]
        refine ⟨by first | rfl | trivial, ?_⟩
        exact List.Forall₂.cons (diffEquiv_mk rfl rfl (StructEq.number q) hsup)
          List.Forall₂.nil
    | str s =>
      have hse : scalarsEqual (.str s) sup = scalarsEqual (.str s) sup' :=
        structEq_scalarsEqual (StructEq.str s) hsup
      by_cases hs : scalarsEqual (.str s) sup = true
      · have hs' : scalarsEqual (.str s) sup' = true := by rw [← hse]; exact hs
        simp [checkSubsetPath, hs, hs']
      · have hs' : ¬ (scalarsEqual (.str s) sup' = true) := by rw [← hse]; exact hs
        simp only [checkSubsetPath, hs, hs', Bool.false_eq_true, if_false]
        refine ⟨by first | rfl | trivial, ?_⟩
        exact List.Forall₂.cons (diffEquiv_mk rfl rfl (StructEq.str s) hsup)
          List.Forall₂.nil
    | arr hlist =>
      rename_i xs ys
      cases wsub with
      | arr hwsub =>
        have hszs : sizeOf xs ≤ n := by
          simp only [JValue.arr.sizeOf_spec] at h; omega
        cases hsup with
        | null =>
          simp only [checkSubsetPath]
          refine ⟨by first | rfl | trivial, ?_⟩
          exact List.Forall₂.cons
            (diffEquiv_mk rfl rfl (StructEq.arr hlist) StructEq.null) List.Forall₂.nil
        | boolean b2 =>
          simp only [checkSubsetPath]
          refine ⟨by first | rfl | trivial, ?_⟩
          exact List.Forall₂.cons
            (diffEquiv_mk rfl rfl (StructEq.arr hlist) (StructEq.boolean b2))
            List.Forall₂.nil
        | number q2 =>
          simp only [checkSubsetPath]
          refine ⟨by first | rfl | trivial, ?_⟩
          exact List.Forall₂.cons
            (diffEquiv_mk rfl rfl (StructEq.arr hlist) (StructEq.number q2))
            List.Forall₂.nil
        | str s2 =>
          simp only [checkSubsetPath]
          refine ⟨by first | rfl | trivial, ?_⟩
          exact List.Forall₂.cons
            (diffEquiv_mk rfl rfl (StructEq.arr hlist) (StructEq.str s2))
            List.Forall₂.nil
        | obj hfs hperms =>
          simp only [checkSubsetPath]
          refine ⟨by first | rfl | trivial, ?_⟩
          exact List.Forall₂.cons
            (diffEquiv_mk rfl rfl (StructEq.arr hlist) (StructEq.obj hfs hperms))
            List.Forall₂.nil
        | arr hsuplist =>
          rename_i us ws
          cases wsup with
          | arr hwsup =>
            simp only [checkSubsetPath, checkArraySubset]
            apply arrLoop_structEq hlist
            intro v hv v' hvv'
            apply existsMatch_structEq hsuplist
            intro w hw w' hww'
            have hszv := List.sizeOf_lt_of_mem hv
            exact (ih v (by omega) v' w w' [] hvv' hww' (hwsub v hv) (hwsup w hw)).1
    | obj hf hperm =>
      rename_i xs ys zs
      cases wsub with
      | obj hnd hwv =>
        have hszs : sizeOf xs ≤ n := by
          simp only [JValue.obj.sizeOf_spec] at h; omega
        cases hsup with
        | null =>
          simp only [checkSubsetPath]
          refine ⟨by first | rfl | trivial, ?_⟩
          exact List.Forall₂.cons
            (diffEquiv_mk rfl rfl (StructEq.obj hf hperm) StructEq.null)
            List.Forall₂.nil
        | boolean b2 =>
          simp only [checkSubsetPath]
          refine ⟨by first | rfl | trivial, ?_⟩
          exact List.Forall₂.cons
            (diffEquiv_mk rfl rfl (StructEq.obj hf hperm) (StructEq.boolean b2))
            List.Forall₂.nil
        | number q2 =>
          simp only [checkSubsetPath]
          refine ⟨by first | rfl | trivial, ?_⟩
          exact List.Forall₂.cons
            (diffEquiv_mk rfl rfl (StructEq.obj hf hperm) (StructEq.number q2))
            List.Forall₂.nil
        | str s2 =>
          simp only [checkSubsetPath]
          refine ⟨by first | rfl | trivial, ?_⟩
          exact List.Forall₂.cons
            (diffEquiv_mk rfl rfl (StructEq.obj hf hperm) (StructEq.str s2))
            List.Forall₂.nil
        | arr hsuplist =>
          simp only [checkSubsetPath]
          refine ⟨by first | rfl | trivial, ?_⟩
          exact List.Forall₂.cons
            (diffEquiv_mk rfl rfl (StructEq.obj hf hperm) (StructEq.arr hsuplist))
            List.Forall₂.nil
        | obj hfs hperms =>
          rename_i us vs ws
          cases wsup with
          | obj hnds hwvs =>
            have hkeys : sortStrings (zs.map Prod.fst) = sortStrings (xs.map Prod.fst) := by
              apply sortStrings_eq_of_perm
              have hp := (hperm.map Prod.fst).symm
              rw [← structEqFields_fst_eq hf] at hp
              exact hp
            have hsubLook : ∀ k, optStructEq (lookupV k xs) (lookupV k zs) := by
              intro k
              have e1 := lookupV_rel_of_fields hf k
              have e2 : lookupV k ys = lookupV k zs := by
                apply lookupV_eq_of_perm hperm ?_ k
                rw [← structEqFields_fst_eq hf]; exact hnd
              rw [← e2]
              exact e1
            have hsupLook : ∀ k, optStructEq (lookupV k us) (lookupV k ws) := by
              intro k
              have e1 := lookupV_rel_of_fields hfs k
              have e2 : lookupV k vs = lookupV k ws := by
                apply lookupV_eq_of_perm hperms ?_ k
                rw [← structEqFields_fst_eq hfs]; exact hnds
              rw [← e2]
              exact e1
            simp only [checkSubsetPath, checkObjectSubset, hkeys]
            apply objLoop_structEq
            · exact hsubLook
            · exact hsupLook
            · intro k sv sv' wv wv' hx hz hu hw p
              have hszv := lookupV_sizeOf hx
              have hrelsub := hsubLook k
              rw [hx, hz] at hrelsub
              have hrelsup := hsupLook k
              rw [hu, hw] at hrelsup
              exact ih sv (by omega) sv' wv wv' p hrelsub hrelsup
                (hwv _ (lookupV_mem hx)) (hwvs _ (lookupV_mem hu))

/-- C8: the typed checker is deterministic and independent of map
iteration order: on structurally-equal inputs (same maps up to
association order at every level, with the well-formed distinct keys
that `encoding/json` guarantees) it returns the same verdict and
pointwise-equivalent difference lists — same length, same order, same
paths and kinds, structurally-equal payloads.  The diff order is
canonical because object keys are visited in sorted order and array
elements in original order. -/
theorem c8_check_deterministic (sub sub' sup sup' : JValue)
    (hsub : StructEq sub sub') (hsup : StructEq sup sup')
    (wsub : WFJson sub) (wsup : WFJson sup) :
    (checkSubsetWithDiffs sub sup).1 = (checkSubsetWithDiffs sub' sup').1 ∧
    List.Forall₂ diffEquiv (checkSubsetWithDiffs sub sup).2
      (checkSubsetWithDiffs sub' sup').2 := by
  simpa [checkSubsetWithDiffs] using
    check_structEq_aux (sizeOf sub) sub le_rfl sub' sup sup' [] hsub hsup wsub wsup

/-- Witness for C8: the same two-field object presented in two
association orders, against the empty object, yields the same verdict
and equivalent diff lists. -/
theorem c8_check_deterministic_witness :
    (checkSubsetWithDiffs (.obj [("a", JValue.number 1), ("b", JValue.number 2)])
        (.obj [])).1 =
      (checkSubsetWithDiffs (.obj [("b", JValue.number 2), ("a", JValue.number 1)])
        (.obj [])).1 ∧
    List.Forall₂ diffEquiv
      (checkSubsetWithDiffs (.obj [("a", JValue.number 1), ("b", JValue.number 2)])
        (.obj [])).2
      (checkSubsetWithDiffs (.obj [("b", JValue.number 2), ("a", JValue.number 1)])
        (.obj [])).2 := by
  apply c8_check_deterministic
  · exact StructEq.obj
      (StructEqFields.cons (StructEq.number 1)
        (StructEqFields.cons (StructEq.number 2) StructEqFields.nil))
      (List.Perm.swap ("b", JValue.number 2) ("a", JValue.number 1) [])
  · exact StructEq.obj StructEqFields.nil (List.Perm.refl [])
  · refine WFJson.obj (by decide) ?_
    intro p hp
    simp only [List.mem_cons, List.not_mem_nil, or_false] at hp
    rcases hp with rfl | rfl
    · exact WFJson.number 1
    · exact WFJson.number 2
  · exact WFJson.obj (by decide) (by intro p hp; simp at hp)
